import Mathlib

/-!
Shallow embedding of the AGE (Abstract Gamification Engine) repository:
the data model (`src/@types/index.ts`), the `countAchievement` utility
(`src/utils.ts`), the in-memory storage adapter (`src/MemoryDataStore.ts`
over the base `DataStore`), the rule model (`src/AchievementRule.ts`) and
the evaluation engine (`src/GameEngine.ts`).

Modelling conventions:
- `string | number` identifiers and names are modelled as `String`.
- JavaScript `Date` values are modelled as `Nat` timestamps; every
  `new Date()` executed during one engine call is modelled by a single
  `now : Nat` parameter passed to that call (all such dates are created
  within the same synchronous call).
- The `Record<Player["id"], GamePlayer>` object is modelled as an
  association list with unique keys, via `lookupState` / `setState`.
- A thrown `Error` is modelled as a `JsError` carrying its message; a
  call that can throw returns the store mutations already performed, the
  notifications already emitted, and an optional propagated error
  (JavaScript exceptions do not roll back prior mutations).
- The engine is an `EventEmitter`; the notifications emitted during a
  call are modelled as an ordered trace (`List Notification`), which is
  the order in which subscribers observe them.
- Rule `key` functions and `predicate`s receive `(player, engine)` in
  the source; they are modelled as functions of the `GamePlayer`
  argument alone (no claim involves a predicate consulting the engine).
-/

namespace AGE

/-- A `Player` is an external identity record: an `id` plus arbitrary
caller-defined fields (`Record<string, unknown> & { id }`), modelled as
a `String` association list. -/
structure Player where
  id : String
  fields : List (String × String)
deriving DecidableEq, Repr

/-- An `Achievement` is a named award with the `Date` it was achieved. -/
structure Achievement where
  name : String
  achieved : Nat
deriving DecidableEq, Repr

/-- An `Event` is a named occurrence (the optional `data` payload is
never set by the engine: `addEvent` builds `{ name: eventName }`). -/
structure Event where
  name : String
deriving DecidableEq, Repr

/-- The payload of a `HistoryItem`: either an event or an achievement. -/
inductive HistoryEntry where
  | event (e : Event)
  | achievement (a : Achievement)
deriving DecidableEq, Repr

/-- A `HistoryItem` is a timestamped union of an event or achievement. -/
structure HistoryItem where
  timestamp : Nat
  entry : HistoryEntry
deriving DecidableEq, Repr

/-- `GamePlayer` is the engine-owned state for one player. -/
structure GamePlayer where
  id : String
  achievements : List Achievement
  history : List HistoryItem
  data : Player
deriving DecidableEq, Repr

/-! ## `src/utils.ts` -/

/-- Loop body of `countAchievement`: `count` starts at 0; each matching
achievement increments it, and the loop breaks once `max && count >= max`
(JavaScript truthiness: `max` is truthy iff it is a non-zero number). -/
def countAchievementLoop (arr : List Achievement) (val : String) (max : Int)
    (count : Int) : Int :=
  match arr with
  | [] => count
  | a :: rest =>
    if a.name = val then
      let c := count + 1
      if max ≠ 0 ∧ c ≥ max then c
      else countAchievementLoop rest val max c
    else countAchievementLoop rest val max count

/-- `countAchievement(arr, val, max)` from `src/utils.ts`: counts the
achievements in `arr` named `val`, short-circuiting once the count
reaches `max` (when `max` is truthy). -/
def countAchievement (arr : List Achievement) (val : String) (max : Int) : Int :=
  countAchievementLoop arr val max 0

/-! ## Errors -/

/-- A thrown JavaScript `Error`, identified by its message. -/
structure JsError where
  message : String
deriving DecidableEq, Repr

/-- `new Error("Method not implemented.")` — thrown by the unset default
`key` and `predicate` of `AchievementRule` (and by the base `DataStore`
operations). -/
def methodNotImplementedError : JsError :=
  JsError.mk "Method not implemented."

/-- `new Error("TODO: Transient rules not implemented")` — thrown by
`evaluateSingleAchievement` on the transient path. -/
def transientTodoError : JsError :=
  JsError.mk "TODO: Transient rules not implemented"

/-! ## `src/AchievementRule.ts` -/

/-- The value a rule `key` function yields: a scalar or an array. -/
inductive KeyResult where
  | scalar (k : String)
  | list (ks : List String)

/-- The `key` field of an `AchievementRule`: a scalar, an array, a
function of `(player, engine)`, or the unset default (a function that
throws `Error("Method not implemented.")` when invoked). -/
inductive RuleKeySpec where
  | scalar (k : String)
  | list (ks : List String)
  | func (f : GamePlayer → KeyResult)
  | unset

/-- The `predicate` field of an `AchievementRule`: a boolean function of
`(player, engine)`, or the unset default (throws when invoked). -/
inductive PredSpec where
  | fn (p : GamePlayer → Bool)
  | unset

/-- `AchievementRule`: multiplicity (integer, default 0), transient flag
(default false), key and predicate (defaults throw when invoked). -/
structure AchievementRule where
  multiplicity : Int
  transient : Bool
  key : RuleKeySpec
  predicate : PredSpec

/-! ## `src/DataStore.ts` and `src/MemoryDataStore.ts` -/

/-- Lookup in the `gameStates` record (`this.gameStates[id]`). -/
def lookupState (l : List (String × GamePlayer)) (id : String) :
    Option GamePlayer :=
  match l with
  | [] => none
  | (k, v) :: rest => if k = id then some v else lookupState rest id

/-- Assignment to the `gameStates` record (`this.gameStates[id] = gp`);
overwrites the entry for `id` or appends a fresh one. -/
def setState (l : List (String × GamePlayer)) (id : String)
    (gp : GamePlayer) : List (String × GamePlayer) :=
  match l with
  | [] => [(id, gp)]
  | (k, v) :: rest =>
    if k = id then (k, gp) :: rest else (k, v) :: setState rest id gp

/-- `DataStore.makePlayer(data)`: a fresh `GamePlayer` for `data`. -/
def makePlayer (data : Player) : GamePlayer :=
  GamePlayer.mk data.id [] [] data

/-- `MemoryDataStore`: an in-memory map from id to `GamePlayer`. -/
structure MemoryDataStore where
  gameStates : List (String × GamePlayer)
deriving DecidableEq, Repr

/-- `MemoryDataStore.recordPlayer(player)`:
`gameStates[id] = gameStates[id] || makePlayer(player)` — an existing
entry (always truthy) is kept, otherwise a fresh player is created. -/
def MemoryDataStore.recordPlayer (s : MemoryDataStore) (player : Player) :
    MemoryDataStore :=
  match lookupState s.gameStates player.id with
  | some _ => s
  | none => MemoryDataStore.mk (setState s.gameStates player.id (makePlayer player))

/-- `MemoryDataStore.recordEvent(player, event)`: ensures the entry
exists (same `||` idiom as `recordPlayer`), then
`gameStates[id]?.history.push({ timestamp: new Date(), event })`. -/
def MemoryDataStore.recordEvent (s : MemoryDataStore) (player : Player)
    (event : Event) (now : Nat) : MemoryDataStore :=
  let s := s.recordPlayer player
  match lookupState s.gameStates player.id with
  | some gp =>
    MemoryDataStore.mk (setState s.gameStates player.id
      (GamePlayer.mk gp.id gp.achievements
        (gp.history ++ [HistoryItem.mk now (HistoryEntry.event event)]) gp.data))
  | none => s

/-- `MemoryDataStore.recordAchievement(player, achievement)`: ensures the
entry exists, then pushes a history item timestamped with the
achievement's own `achieved` date, then pushes the achievement itself
(two separate optional-chained pushes on the same entry). -/
def MemoryDataStore.recordAchievement (s : MemoryDataStore) (player : Player)
    (achievement : Achievement) : MemoryDataStore :=
  let s := s.recordPlayer player
  let s :=
    match lookupState s.gameStates player.id with
    | some gp =>
      MemoryDataStore.mk (setState s.gameStates player.id
        (GamePlayer.mk gp.id gp.achievements
          (gp.history ++
            [HistoryItem.mk achievement.achieved
              (HistoryEntry.achievement achievement)]) gp.data))
    | none => s
  match lookupState s.gameStates player.id with
  | some gp =>
    MemoryDataStore.mk (setState s.gameStates player.id
      (GamePlayer.mk gp.id (gp.achievements ++ [achievement]) gp.history gp.data))
  | none => s

/-- `lodash.clonedeep` on a `GamePlayer`: a deep copy of an immutable
value is the value itself. The aliasing consequence of the copy (a
mutation of the returned object cannot reach the store) is modelled
explicitly by `getPlayerAliased` and `mutateReturned` below. -/
def clonedeep (gp : GamePlayer) : GamePlayer := gp

/-- `MemoryDataStore.getPlayer(player)`:
`clonedeep(this.gameStates[player.id])`. -/
def MemoryDataStore.getPlayer (s : MemoryDataStore) (player : Player) :
    Option GamePlayer :=
  (lookupState s.gameStates player.id).map clonedeep

/-- `DataStore.getPlayerAchievements(player)`:
`this.getPlayer(player)?.achievements ?? []`. -/
def MemoryDataStore.getPlayerAchievements (s : MemoryDataStore)
    (player : Player) : List Achievement :=
  ((s.getPlayer player).map GamePlayer.achievements).getD []

/-- `DataStore.getPlayerHistory(player)`:
`this.getPlayer(player)?.history ?? []`. -/
def MemoryDataStore.getPlayerHistory (s : MemoryDataStore)
    (player : Player) : List HistoryItem :=
  ((s.getPlayer player).map GamePlayer.history).getD []

/-! ## `src/GameEngine.ts` -/

/-- A notification emitted by the engine: `"event-occurred"` with
payload `(player, event)` or `"achievement-achieved"` with payload
`(player, achievement)` (the engine instance itself is the third payload
component in the source and is omitted here). -/
inductive Notification where
  | eventOccurred (player : Player) (e : Event)
  | achievementAchieved (player : Player) (a : Achievement)
deriving DecidableEq, Repr

/-- `true` exactly on `"achievement-achieved"` notifications. -/
def isAchievementNotification : Notification → Bool
  | Notification.eventOccurred _ _ => false
  | Notification.achievementAchieved _ _ => true

/-- The outcome of a (possibly throwing) engine step: the store after
the mutations that did happen, the notifications emitted in order, and
the propagated error, if one was thrown. -/
structure EngineOutcome where
  store : MemoryDataStore
  emitted : List Notification
  err : Option JsError
deriving DecidableEq, Repr

/-- Key resolution, first half of `evaluateAchievementRule`:
`key = typeof rule.key === "function" ? rule.key(player, this) : rule.key;`
`keys = Array.isArray(key) ? key : [key]` — the unset default key is a
function that throws `Error("Method not implemented.")`. -/
def resolveKeys (spec : RuleKeySpec) (gp : GamePlayer) :
    Except JsError (List String) :=
  match spec with
  | RuleKeySpec.scalar k => Except.ok [k]
  | RuleKeySpec.list ks => Except.ok ks
  | RuleKeySpec.func f =>
    match f gp with
    | KeyResult.scalar k => Except.ok [k]
    | KeyResult.list ks => Except.ok ks
  | RuleKeySpec.unset => Except.error methodNotImplementedError

/-- `GameEngine.addAchievement(player, achievementName)`: builds the
achievement with `achieved: new Date()`, records it in the datastore and
emits `"achievement-achieved"`. Returns the new store and the emitted
notification trace. -/
def addAchievement (s : MemoryDataStore) (player : Player)
    (achievementName : String) (now : Nat) :
    MemoryDataStore × List Notification :=
  let achievement := Achievement.mk achievementName now
  (s.recordAchievement player achievement,
    [Notification.achievementAchieved player achievement])

/-- `GameEngine.evaluateSingleAchievement(player, key, rule)`: the
multiplicity guard counts achievements on the `player` argument (the
snapshot passed in), then the predicate is invoked on that snapshot; on
a true verdict a non-transient rule awards the achievement via
`addAchievement(player.data, key)`, while a transient rule throws. An
unset predicate throws when invoked. -/
def evaluateSingleAchievement (gp : GamePlayer) (key : String)
    (rule : AchievementRule) (now : Nat) (s : MemoryDataStore) :
    EngineOutcome :=
  if rule.multiplicity > 0 ∧
      countAchievement gp.achievements key rule.multiplicity ≥ rule.multiplicity then
    EngineOutcome.mk s [] none
  else
    match rule.predicate with
    | PredSpec.unset => EngineOutcome.mk s [] (some methodNotImplementedError)
    | PredSpec.fn p =>
      if p gp then
        if !rule.transient then
          let (s, ems) := addAchievement s gp.data key now
          EngineOutcome.mk s ems none
        else
          EngineOutcome.mk s [] (some transientTodoError)
      else
        EngineOutcome.mk s [] none

/-- The `keys.forEach` loop of `evaluateAchievementRule`: each resolved
key is evaluated in list order against the same snapshot `gp`; a thrown
error propagates, keeping the mutations and notifications already
produced and skipping the remaining keys. -/
def evalKeys (gp : GamePlayer) (rule : AchievementRule) (now : Nat)
    (s : MemoryDataStore) : List String → EngineOutcome
  | [] => EngineOutcome.mk s [] none
  | k :: rest =>
    let out := evaluateSingleAchievement gp k rule now s
    match out.err with
    | some _ => out
    | none =>
      let out2 := evalKeys gp rule now out.store rest
      EngineOutcome.mk out2.store (out.emitted ++ out2.emitted) out2.err

/-- `GameEngine.evaluateAchievementRule(player, rule)`: resolves the
rule's key(s) from the snapshot, then evaluates each key in order. -/
def evaluateAchievementRule (gp : GamePlayer) (rule : AchievementRule)
    (now : Nat) (s : MemoryDataStore) : EngineOutcome :=
  match resolveKeys rule.key gp with
  | Except.error e => EngineOutcome.mk s [] (some e)
  | Except.ok keys => evalKeys gp rule now s keys

/-- The `achievementRules.forEach` loop of `addEvent`: every registered
rule is evaluated in registration order against the same snapshot `gp`
(fetched once, before the loop); a thrown error propagates past the
remaining rules. -/
def evalRules (gp : GamePlayer) (now : Nat) (s : MemoryDataStore) :
    List AchievementRule → EngineOutcome
  | [] => EngineOutcome.mk s [] none
  | r :: rest =>
    let out := evaluateAchievementRule gp r now s
    match out.err with
    | some _ => out
    | none =>
      let out2 := evalRules gp now out.store rest
      EngineOutcome.mk out2.store (out.emitted ++ out2.emitted) out2.err

/-- The engine: a datastore plus the ordered list of registered rules. -/
structure GameEngine where
  datastore : MemoryDataStore
  achievementRules : List AchievementRule

/-- `GameEngine.addPlayer(player)`: delegates to `recordPlayer`. -/
def GameEngine.addPlayer (eng : GameEngine) (player : Player) : GameEngine :=
  GameEngine.mk (eng.datastore.recordPlayer player) eng.achievementRules

/-- `GameEngine.addEvent(player, eventName)`: builds the event, records
it, emits `"event-occurred"`, fetches the `GamePlayer` once, and — when
the lookup succeeds — evaluates every registered rule against that one
snapshot. Returns the resulting engine, the full notification trace in
emission order, and the propagated error, if any. -/
def GameEngine.addEvent (eng : GameEngine) (player : Player)
    (eventName : String) (now : Nat) :
    GameEngine × List Notification × Option JsError :=
  let event := Event.mk eventName
  let s1 := eng.datastore.recordEvent player event now
  let ems := [Notification.eventOccurred player event]
  match s1.getPlayer player with
  | none => (GameEngine.mk s1 eng.achievementRules, ems, none)
  | some gp =>
    let out := evalRules gp now s1 eng.achievementRules
    (GameEngine.mk out.store eng.achievementRules, ems ++ out.emitted, out.err)

/-! ## Spec-described evaluation order (for comparison)

The spec asserts that "the award path re-reads from storage before each
predicate call", i.e. that player state is re-fetched once per rule-key
evaluation, so an award from an earlier rule is visible to later rules
within the same event. The following evaluator follows those words of
the spec; it is compared against the engine defined above. -/

/-- Spec-described variant of the `keys.forEach` loop: the player state
is re-fetched from storage before each single-key evaluation. -/
def specRereadEvalKeys (player : Player) (rule : AchievementRule)
    (now : Nat) (s : MemoryDataStore) : List String → EngineOutcome
  | [] => EngineOutcome.mk s [] none
  | k :: rest =>
    match s.getPlayer player with
    | none => EngineOutcome.mk s [] none
    | some gp =>
      let out := evaluateSingleAchievement gp k rule now s
      match out.err with
      | some _ => out
      | none =>
        let out2 := specRereadEvalKeys player rule now out.store rest
        EngineOutcome.mk out2.store (out.emitted ++ out2.emitted) out2.err

/-- Spec-described variant of the rule loop: each rule resolves its keys
from freshly fetched state and each key re-reads state before its
predicate call. -/
def specRereadEvalRules (player : Player) (now : Nat) (s : MemoryDataStore) :
    List AchievementRule → EngineOutcome
  | [] => EngineOutcome.mk s [] none
  | r :: rest =>
    let out :=
      match s.getPlayer player with
      | none => EngineOutcome.mk s [] none
      | some gp =>
        match resolveKeys r.key gp with
        | Except.error e => EngineOutcome.mk s [] (some e)
        | Except.ok keys => specRereadEvalKeys player r now s keys
    match out.err with
    | some _ => out
    | none =>
      let out2 := specRereadEvalRules player now out.store rest
      EngineOutcome.mk out2.store (out.emitted ++ out2.emitted) out2.err

/-- Spec-described `addEvent`, differing from `GameEngine.addEvent` only
in using the re-reading rule loop. -/
def specRereadAddEvent (eng : GameEngine) (player : Player)
    (eventName : String) (now : Nat) :
    GameEngine × List Notification × Option JsError :=
  let event := Event.mk eventName
  let s1 := eng.datastore.recordEvent player event now
  let ems := [Notification.eventOccurred player event]
  let out := specRereadEvalRules player now s1 eng.achievementRules
  (GameEngine.mk out.store eng.achievementRules, ems ++ out.emitted, out.err)

/-! ## Aliasing model for `getPlayer`

`MemoryDataStore.getPlayer` returns `clonedeep(this.gameStates[id])`.
Whether a caller's mutation of the returned object can reach the store
depends on whether the returned object aliases the store entry; `JSValue`
makes that distinction explicit: `ref id` is the store entry itself,
`val gp` is an independent copy. `mutateReturned` is the semantics of the
caller mutating what it received: a mutation through a `ref` writes to
the store, a mutation of a `val` does not. -/

/-- A JavaScript object handed to a caller: either an alias of the store
entry for `id`, or an independent copy. -/
inductive JSValue where
  | ref (id : String)
  | val (gp : GamePlayer)

/-- `getPlayer` with the aliasing of its result made explicit: the
source applies `clonedeep`, so the result is an independent copy
(`JSValue.val`), never an alias of the store entry. -/
def MemoryDataStore.getPlayerAliased (s : MemoryDataStore) (player : Player) :
    Option JSValue :=
  (lookupState s.gameStates player.id).map (fun gp => JSValue.val (clonedeep gp))

/-- The caller mutates the object it received from `getPlayer` (applying
an arbitrary modification `f` to its history, achievements or data): a
mutation through an alias writes back into the store, a mutation of an
independent copy leaves the store as it was. -/
def mutateReturned (s : MemoryDataStore) (v : Option JSValue)
    (f : GamePlayer → GamePlayer) : MemoryDataStore :=
  match v with
  | none => s
  | some (JSValue.ref id) =>
    match lookupState s.gameStates id with
    | some gp => MemoryDataStore.mk (setState s.gameStates id (f gp))
    | none => s
  | some (JSValue.val _) => s

/-! ## Basic lemmas about the store -/

theorem lookupState_setState_self (l : List (String × GamePlayer)) (id : String)
    (gp : GamePlayer) : lookupState (setState l id gp) id = some gp := by
  induction l with
  | nil => simp [setState, lookupState]
  | cons hd tl ih =>
    obtain ⟨k, v⟩ := hd
    by_cases hk : k = id
    · simp [setState, lookupState, hk]
    · simp [setState, lookupState, hk, ih]

theorem recordPlayer_lookup (s : MemoryDataStore) (p : Player) :
    lookupState (s.recordPlayer p).gameStates p.id =
      some ((lookupState s.gameStates p.id).getD (makePlayer p)) := by
  unfold MemoryDataStore.recordPlayer
  cases h : lookupState s.gameStates p.id with
  | none => simp [h, lookupState_setState_self]
  | some gp => simp [h]

theorem recordPlayer_of_lookup_some (s : MemoryDataStore) (q : Player)
    (gp : GamePlayer) (h : lookupState s.gameStates q.id = some gp) :
    s.recordPlayer q = s := by
  unfold MemoryDataStore.recordPlayer
  simp [h]

theorem recordEvent_lookup (s : MemoryDataStore) (p : Player) (e : Event)
    (now : Nat) :
    lookupState (s.recordEvent p e now).gameStates p.id =
      some (GamePlayer.mk
        ((lookupState s.gameStates p.id).getD (makePlayer p)).id
        ((lookupState s.gameStates p.id).getD (makePlayer p)).achievements
        (((lookupState s.gameStates p.id).getD (makePlayer p)).history ++
          [HistoryItem.mk now (HistoryEntry.event e)])
        ((lookupState s.gameStates p.id).getD (makePlayer p)).data) := by
  unfold MemoryDataStore.recordEvent
  simp [recordPlayer_lookup, lookupState_setState_self]

theorem recordAchievement_lookup (s : MemoryDataStore) (p : Player)
    (a : Achievement) :
    lookupState (s.recordAchievement p a).gameStates p.id =
      some (GamePlayer.mk
        ((lookupState s.gameStates p.id).getD (makePlayer p)).id
        (((lookupState s.gameStates p.id).getD (makePlayer p)).achievements ++ [a])
        (((lookupState s.gameStates p.id).getD (makePlayer p)).history ++
          [HistoryItem.mk a.achieved (HistoryEntry.achievement a)])
        ((lookupState s.gameStates p.id).getD (makePlayer p)).data) := by
  unfold MemoryDataStore.recordAchievement
  simp [recordPlayer_lookup, lookupState_setState_self]

/-! ## Lemmas about the evaluation pipeline -/

/-- The notifications a single-key evaluation emits, and whether it
throws, depend only on the snapshot `gp`, never on the current store:
the store is consulted only to append the award. -/
theorem evaluateSingleAchievement_emitted_indep (gp : GamePlayer) (k : String)
    (rule : AchievementRule) (now : Nat) (s s' : MemoryDataStore) :
    (evaluateSingleAchievement gp k rule now s).emitted =
        (evaluateSingleAchievement gp k rule now s').emitted ∧
      (evaluateSingleAchievement gp k rule now s).err =
        (evaluateSingleAchievement gp k rule now s').err := by
  unfold evaluateSingleAchievement
  by_cases hguard : rule.multiplicity > 0 ∧
      countAchievement gp.achievements k rule.multiplicity ≥ rule.multiplicity
  · simp [hguard]
  · cases hpred : rule.predicate with
    | unset => simp [hguard, hpred]
    | fn p =>
      by_cases hp : p gp
      · cases htr : rule.transient with
        | false => simp [hguard, hpred, hp, htr, addAchievement]
        | true => simp [hguard, hpred, hp, htr]
      · simp [hguard, hpred, hp]

/-- The `keys.forEach` loop inherits the store-independence of its
emissions and error from the single-key evaluation. -/
theorem evalKeys_emitted_indep (gp : GamePlayer) (rule : AchievementRule)
    (now : Nat) (ks : List String) :
    ∀ s s' : MemoryDataStore,
      (evalKeys gp rule now s ks).emitted = (evalKeys gp rule now s' ks).emitted ∧
        (evalKeys gp rule now s ks).err = (evalKeys gp rule now s' ks).err := by
  induction ks with
  | nil => intro s s'; exact ⟨rfl, rfl⟩
  | cons k rest ih =>
    intro s s'
    obtain ⟨hem, herr⟩ := evaluateSingleAchievement_emitted_indep gp k rule now s s'
    unfold evalKeys
    cases h : (evaluateSingleAchievement gp k rule now s).err with
    | some e =>
      have h' : (evaluateSingleAchievement gp k rule now s').err = some e := by
        rw [← herr, h]
      simp [h, h', hem]
    | none =>
      have h' : (evaluateSingleAchievement gp k rule now s').err = none := by
        rw [← herr, h]
      obtain ⟨hem2, herr2⟩ :=
        ih (evaluateSingleAchievement gp k rule now s).store
          (evaluateSingleAchievement gp k rule now s').store
      simp [h, h', hem, hem2, herr2]

/-- The notifications a whole rule emits while evaluated against a fixed
snapshot, and whether it throws, do not depend on the store it is run
against. -/
theorem evaluateAchievementRule_emitted_indep (gp : GamePlayer)
    (rule : AchievementRule) (now : Nat) (s s' : MemoryDataStore) :
    (evaluateAchievementRule gp rule now s).emitted =
        (evaluateAchievementRule gp rule now s').emitted ∧
      (evaluateAchievementRule gp rule now s).err =
        (evaluateAchievementRule gp rule now s').err := by
  unfold evaluateAchievementRule
  cases h : resolveKeys rule.key gp with
  | error e => simp
  | ok keys => exact evalKeys_emitted_indep gp rule now keys s s'

/-- Every notification emitted by a single-key evaluation is an
`"achievement-achieved"` notification. -/
theorem evaluateSingleAchievement_all_achievement (gp : GamePlayer) (k : String)
    (rule : AchievementRule) (now : Nat) (s : MemoryDataStore) :
    ((evaluateSingleAchievement gp k rule now s).emitted).all
      isAchievementNotification = true := by
  unfold evaluateSingleAchievement
  by_cases hguard : rule.multiplicity > 0 ∧
      countAchievement gp.achievements k rule.multiplicity ≥ rule.multiplicity
  · simp [hguard]
  · cases hpred : rule.predicate with
    | unset => simp [hguard, hpred]
    | fn p =>
      by_cases hp : p gp
      · cases htr : rule.transient with
        | false =>
          simp [hguard, hpred, hp, htr, addAchievement, isAchievementNotification]
        | true => simp [hguard, hpred, hp, htr]
      · simp [hguard, hpred, hp]

/-- Every notification emitted by the key loop is an
`"achievement-achieved"` notification. -/
theorem evalKeys_all_achievement (gp : GamePlayer) (rule : AchievementRule)
    (now : Nat) (ks : List String) :
    ∀ s : MemoryDataStore,
      ((evalKeys gp rule now s ks).emitted).all isAchievementNotification = true := by
  induction ks with
  | nil => intro s; rfl
  | cons k rest ih =>
    intro s
    unfold evalKeys
    cases h : (evaluateSingleAchievement gp k rule now s).err with
    | some e =>
      simp only [h]
      exact evaluateSingleAchievement_all_achievement gp k rule now s
    | none =>
      have h1 := evaluateSingleAchievement_all_achievement gp k rule now s
      have h2 := ih (evaluateSingleAchievement gp k rule now s).store
      simp only [h, List.all_append]
      simp [h1, h2]

/-- Every notification emitted by the rule loop is an
`"achievement-achieved"` notification. -/
theorem evalRules_all_achievement (gp : GamePlayer) (now : Nat)
    (rs : List AchievementRule) :
    ∀ s : MemoryDataStore,
      ((evalRules gp now s rs).emitted).all isAchievementNotification = true := by
  induction rs with
  | nil => intro s; rfl
  | cons r rest ih =>
    intro s
    have hr : ∀ t : MemoryDataStore,
        ((evaluateAchievementRule gp r now t).emitted).all
          isAchievementNotification = true := by
      intro t
      unfold evaluateAchievementRule
      cases h : resolveKeys r.key gp with
      | error e => rfl
      | ok keys => exact evalKeys_all_achievement gp r now keys t
    unfold evalRules
    cases h : (evaluateAchievementRule gp r now s).err with
    | some e =>
      simp only [h]
      exact hr s
    | none =>
      have h2 := ih (evaluateAchievementRule gp r now s).store
      simp only [h, List.all_append]
      simp [hr s, h2]

/-- An always-true, non-transient, unlimited-multiplicity rule awards
every key it is given, in order: the key loop appends one achievement
per key to the store and emits one notification per key. -/
theorem evalKeys_award_all (gp : GamePlayer) (now : Nat)
    (rule : AchievementRule) (hm : rule.multiplicity = 0)
    (ht : rule.transient = false)
    (hp : rule.predicate = PredSpec.fn (fun _ => true)) (ks : List String) :
    ∀ s : MemoryDataStore,
      evalKeys gp rule now s ks =
        EngineOutcome.mk
          (ks.foldl
            (fun acc k => acc.recordAchievement gp.data (Achievement.mk k now)) s)
          (ks.map
            (fun k => Notification.achievementAchieved gp.data (Achievement.mk k now)))
          none := by
  induction ks with
  | nil => intro s; rfl
  | cons k rest ih =>
    intro s
    have hsingle : evaluateSingleAchievement gp k rule now s =
        EngineOutcome.mk
          (s.recordAchievement gp.data (Achievement.mk k now))
          [Notification.achievementAchieved gp.data (Achievement.mk k now)] none := by
      unfold evaluateSingleAchievement
      simp [hm, hp, ht, addAchievement]
    unfold evalKeys
    simp [hsingle, ih]

/-- Repeatedly recording achievements for the same player appends them,
and the matching history items, in order. -/
theorem foldl_recordAchievement_lookup (q : Player) (now : Nat)
    (ks : List String) :
    ∀ (s : MemoryDataStore) (gp0 : GamePlayer),
      lookupState s.gameStates q.id = some gp0 →
      lookupState
          ((ks.foldl
            (fun acc k => acc.recordAchievement q (Achievement.mk k now)) s)).gameStates
          q.id =
        some (GamePlayer.mk gp0.id
          (gp0.achievements ++ ks.map (fun k => Achievement.mk k now))
          (gp0.history ++
            ks.map (fun k =>
              HistoryItem.mk now (HistoryEntry.achievement (Achievement.mk k now))))
          gp0.data) := by
  induction ks with
  | nil => intro s gp0 h; simpa using h
  | cons k rest ih =>
    intro s gp0 h
    have hstep := recordAchievement_lookup s q (Achievement.mk k now)
    rw [h] at hstep
    have := ih (s.recordAchievement q (Achievement.mk k now)) _ hstep
    simpa using this

/-- Appending one more rule after an error-free rule pass: the new
rule's notifications are exactly what it would emit against the store as
it stood when the snapshot was taken — the records made by the earlier
rules do not change what the later rule awards. -/
theorem evalRules_append_one (gp : GamePlayer) (now : Nat)
    (r2 : AchievementRule) (rs : List AchievementRule) :
    ∀ s : MemoryDataStore, (evalRules gp now s rs).err = none →
      (evalRules gp now s (rs ++ [r2])).emitted =
        (evalRules gp now s rs).emitted ++
          (evaluateAchievementRule gp r2 now s).emitted := by
  induction rs with
  | nil =>
    intro s _
    show (evalRules gp now s [r2]).emitted = [] ++ _
    unfold evalRules
    cases h : (evaluateAchievementRule gp r2 now s).err with
    | some e => simp [h]
    | none => simp [h, evalRules]
  | cons r rest ih =>
    intro s hnone
    have hr : (evaluateAchievementRule gp r now s).err = none := by
      cases hcase : (evaluateAchievementRule gp r now s).err with
      | none => rfl
      | some e =>
        unfold evalRules at hnone
        simp [hcase] at hnone
    have hrest : (evalRules gp now (evaluateAchievementRule gp r now s).store rest).err
        = none := by
      unfold evalRules at hnone
      simp [hr] at hnone
      exact hnone
    have ihx := ih (evaluateAchievementRule gp r now s).store hrest
    have hindep := evaluateAchievementRule_emitted_indep gp r2 now
      (evaluateAchievementRule gp r now s).store s
    show (evalRules gp now s (r :: (rest ++ [r2]))).emitted = _
    unfold evalRules
    simp [hr, ihx, hindep.1]

/-! ## Concrete values used in witnesses and counterexamples -/

/-- A sample player. -/
def samplePlayer : Player := Player.mk "p1" []

/-- A sample award-once rule: key `"a"`, multiplicity 1, always-true
predicate, not transient. -/
def sampleOnceRule : AchievementRule :=
  AchievementRule.mk 1 false (RuleKeySpec.scalar "a") (PredSpec.fn (fun _ => true))

/-! ## Claims -/

/-- Claim C1 — counterexample. The claim states that an achievement
recorded by an earlier rule within the same event is visible to a later
rule's multiplicity count and predicate, because player state is re-read
from storage before each predicate call. On the engine as implemented,
with two copies of an award-once rule for key `"a"` registered and one
event submitted for a fresh player, the key `"a"` is awarded twice: the
second rule's multiplicity count consulted the snapshot fetched once at
the start of `addEvent`, on which the first rule's award is absent. The
evaluator that follows the spec's words (`specRereadAddEvent`, which
re-reads player state before each single-key evaluation) awards `"a"`
only once on the same input. -/
theorem award_visibility_counterexample :
    (((GameEngine.mk (MemoryDataStore.mk [])
            [sampleOnceRule, sampleOnceRule]).addEvent samplePlayer "e"
          0).1.datastore.getPlayer samplePlayer).map
        (fun gp => gp.achievements.map Achievement.name) = some ["a", "a"] ∧
      (((specRereadAddEvent
              (GameEngine.mk (MemoryDataStore.mk [])
                [sampleOnceRule, sampleOnceRule]) samplePlayer "e"
            0).1.datastore.getPlayer samplePlayer).map
          (fun gp => gp.achievements.map Achievement.name) = some ["a"]) ∧
      (["a", "a"] : List String) ≠ ["a"] := by
  refine ⟨rfl, rfl, by decide⟩

/-- Claim C1 — amended. During one `addEvent`, player state is fetched
once and every rule is evaluated against that same snapshot, so an
achievement recorded by an earlier rule is NOT visible to a later rule's
multiplicity count or predicate: appending one more rule after an
error-free rule pass, the new rule's notifications are exactly what it
would emit against the store as it stood when the snapshot was taken —
the records made by the earlier rules do not change what it awards. -/
theorem later_rule_unaffected_by_earlier_awards (gp : GamePlayer) (now : Nat)
    (r2 : AchievementRule) (rs : List AchievementRule) (s : MemoryDataStore)
    (h : (evalRules gp now s rs).err = none) :
    (evalRules gp now s (rs ++ [r2])).emitted =
      (evalRules gp now s rs).emitted ++
        (evaluateAchievementRule gp r2 now s).emitted :=
  evalRules_append_one gp now r2 rs s h

/-- Witness for the amended Claim C1 at a concrete input: one earlier
award-once rule, the same rule appended after it. -/
theorem later_rule_unaffected_by_earlier_awards_witness :
    (evalRules (makePlayer samplePlayer) 0 (MemoryDataStore.mk [])
        [sampleOnceRule]).err = none ∧
      (evalRules (makePlayer samplePlayer) 0 (MemoryDataStore.mk [])
          ([sampleOnceRule] ++ [sampleOnceRule])).emitted =
        (evalRules (makePlayer samplePlayer) 0 (MemoryDataStore.mk [])
            [sampleOnceRule]).emitted ++
          (evaluateAchievementRule (makePlayer samplePlayer) sampleOnceRule 0
              (MemoryDataStore.mk [])).emitted :=
  ⟨rfl,
    later_rule_unaffected_by_earlier_awards (makePlayer samplePlayer) 0
      sampleOnceRule [sampleOnceRule] (MemoryDataStore.mk []) rfl⟩

/-- Claim C2 — the code contradicts the multiplicity bound its own rule
documentation promises ("a value of 1 indicates that the achievement can
be awarded exactly once to a given player"): a rule whose key list
repeats `"a"` with multiplicity 1 and an always-true predicate records
the key twice in a single event, because both keys are counted against
the snapshot fetched before the loop. This theorem evaluates the engine
at that failing input: the player ends up with 2 recorded achievements
named `"a"`, exceeding the bound of 1. -/
theorem multiplicity_bound_violated_by_duplicate_keys :
    (((GameEngine.mk (MemoryDataStore.mk [])
            [AchievementRule.mk 1 false (RuleKeySpec.list ["a", "a"])
              (PredSpec.fn (fun _ => true))]).addEvent samplePlayer "e"
          0).1.datastore.getPlayer samplePlayer).map
        (fun gp => countAchievement gp.achievements "a" 0) = some 2 ∧
      ¬ ((2 : Int) ≤ 1) := by
  refine ⟨rfl, by decide⟩

/-- Claim C3: for every `addEvent` call, the `"event-occurred"`
notification for the submitted event is the first notification of the
call's trace, and every later notification of the trace is an
`"achievement-achieved"` notification — so subscribers observe the event
strictly before any achievement it caused. -/
theorem event_notification_before_achievements (eng : GameEngine) (p : Player)
    (eventName : String) (now : Nat) :
    ∃ rest : List Notification,
      (eng.addEvent p eventName now).2.1 =
          Notification.eventOccurred p (Event.mk eventName) :: rest ∧
        rest.all isAchievementNotification = true := by
  unfold GameEngine.addEvent
  cases h : (eng.datastore.recordEvent p (Event.mk eventName) now).getPlayer p with
  | none => exact ⟨[], by simp [h], rfl⟩
  | some gp =>
    refine ⟨(evalRules gp now
        (eng.datastore.recordEvent p (Event.mk eventName) now)
        eng.achievementRules).emitted, by simp [h], ?_⟩
    exact evalRules_all_achievement gp now eng.achievementRules _

/-- Claim C4: a rule whose key resolves to a list of `k` values, with an
always-true predicate, `transient = false` and `multiplicity = 0`,
awards exactly `k` achievements on a single triggering event — one per
key, recorded in list order: the notification trace carries one
achievement per key in list order, no error is raised, and the player's
stored achievements are exactly the resolved keys in list order. Stated
for a player not previously in the store. -/
theorem key_fanout_awards_each_key (s : MemoryDataStore) (p : Player)
    (ks : List String) (eventName : String) (now : Nat)
    (h : lookupState s.gameStates p.id = none) :
    ((GameEngine.mk s
          [AchievementRule.mk 0 false (RuleKeySpec.list ks)
            (PredSpec.fn (fun _ => true))]).addEvent p eventName now).2.1 =
        Notification.eventOccurred p (Event.mk eventName) ::
          ks.map (fun k => Notification.achievementAchieved p
            (Achievement.mk k now)) ∧
      ((GameEngine.mk s
          [AchievementRule.mk 0 false (RuleKeySpec.list ks)
            (PredSpec.fn (fun _ => true))]).addEvent p eventName now).2.2 = none ∧
      (lookupState
          ((GameEngine.mk s
              [AchievementRule.mk 0 false (RuleKeySpec.list ks)
                (PredSpec.fn (fun _ => true))]).addEvent p eventName
            now).1.datastore.gameStates p.id).map GamePlayer.achievements =
        some (ks.map (fun k => Achievement.mk k now)) := by
  have hl : lookupState
      (s.recordEvent p (Event.mk eventName) now).gameStates p.id =
      some (GamePlayer.mk p.id []
        [HistoryItem.mk now (HistoryEntry.event (Event.mk eventName))] p) := by
    rw [recordEvent_lookup, h]
    simp [makePlayer]
  have hgp : (s.recordEvent p (Event.mk eventName) now).getPlayer p =
      some (GamePlayer.mk p.id []
        [HistoryItem.mk now (HistoryEntry.event (Event.mk eventName))] p) := by
    unfold MemoryDataStore.getPlayer
    rw [hl]
    rfl
  have hek := evalKeys_award_all
    (GamePlayer.mk p.id []
      [HistoryItem.mk now (HistoryEntry.event (Event.mk eventName))] p) now
    (AchievementRule.mk 0 false (RuleKeySpec.list ks)
      (PredSpec.fn (fun _ => true))) rfl rfl rfl ks
    (s.recordEvent p (Event.mk eventName) now)
  have hev : evalRules
      (GamePlayer.mk p.id []
        [HistoryItem.mk now (HistoryEntry.event (Event.mk eventName))] p) now
      (s.recordEvent p (Event.mk eventName) now)
      [AchievementRule.mk 0 false (RuleKeySpec.list ks)
        (PredSpec.fn (fun _ => true))] =
      EngineOutcome.mk
        (ks.foldl
          (fun acc k => acc.recordAchievement p (Achievement.mk k now))
          (s.recordEvent p (Event.mk eventName) now))
        (ks.map (fun k => Notification.achievementAchieved p
          (Achievement.mk k now))) none := by
    unfold evalRules evaluateAchievementRule
    simp [resolveKeys, hek, evalRules]
  have hfold := foldl_recordAchievement_lookup p now ks
    (s.recordEvent p (Event.mk eventName) now)
    (GamePlayer.mk p.id []
      [HistoryItem.mk now (HistoryEntry.event (Event.mk eventName))] p) hl
  refine ⟨?_, ?_, ?_⟩
  · unfold GameEngine.addEvent
    simp [hgp, hev]
  · unfold GameEngine.addEvent
    simp [hgp, hev]
  · unfold GameEngine.addEvent
    simp only [hgp, hev]
    rw [hfold]
    simp

/-- Witness for Claim C4 at a concrete input: a fresh player and the
two-key list `["a", "b"]`. -/
theorem key_fanout_awards_each_key_witness :
    lookupState (MemoryDataStore.mk []).gameStates samplePlayer.id = none ∧
      (((GameEngine.mk (MemoryDataStore.mk [])
            [AchievementRule.mk 0 false (RuleKeySpec.list ["a", "b"])
              (PredSpec.fn (fun _ => true))]).addEvent samplePlayer "e" 0).2.1 =
          Notification.eventOccurred samplePlayer (Event.mk "e") ::
            (["a", "b"].map (fun k => Notification.achievementAchieved samplePlayer
              (Achievement.mk k 0))) ∧
        ((GameEngine.mk (MemoryDataStore.mk [])
            [AchievementRule.mk 0 false (RuleKeySpec.list ["a", "b"])
              (PredSpec.fn (fun _ => true))]).addEvent samplePlayer "e" 0).2.2 =
          none ∧
        (lookupState
            ((GameEngine.mk (MemoryDataStore.mk [])
                [AchievementRule.mk 0 false (RuleKeySpec.list ["a", "b"])
                  (PredSpec.fn (fun _ => true))]).addEvent samplePlayer "e"
              0).1.datastore.gameStates samplePlayer.id).map GamePlayer.achievements =
          some (["a", "b"].map (fun k => Achievement.mk k 0))) :=
  ⟨rfl, key_fanout_awards_each_key (MemoryDataStore.mk []) samplePlayer
    ["a", "b"] "e" 0 rfl⟩

/-- Claim C5: when a rule has `transient = true`, its predicate returns
true on the snapshot and the multiplicity guard does not skip it, the
single-key evaluation propagates the transient failure
(`Error("TODO: Transient rules not implemented")`), leaves the store
unchanged and emits nothing; that failure is a different error value
from the `Error("Method not implemented.")` raised by an unset rule key
or by an unset predicate, so callers can tell the two apart. -/
theorem transient_rule_raises_distinct_error (gp : GamePlayer) (key : String)
    (rule : AchievementRule) (now : Nat) (s : MemoryDataStore)
    (pr : GamePlayer → Bool) (htr : rule.transient = true)
    (hpred : rule.predicate = PredSpec.fn pr) (hp : pr gp = true)
    (hskip : ¬ (rule.multiplicity > 0 ∧
      countAchievement gp.achievements key rule.multiplicity ≥
        rule.multiplicity)) :
    evaluateSingleAchievement gp key rule now s =
        EngineOutcome.mk s [] (some transientTodoError) ∧
      transientTodoError ≠ methodNotImplementedError ∧
      resolveKeys RuleKeySpec.unset gp =
        Except.error methodNotImplementedError ∧
      (evaluateSingleAchievement gp key
          (AchievementRule.mk rule.multiplicity rule.transient rule.key
            PredSpec.unset) now s).err = some methodNotImplementedError := by
  refine ⟨?_, by decide, rfl, ?_⟩
  · unfold evaluateSingleAchievement
    simp [hskip, hpred, hp, htr]
  · unfold evaluateSingleAchievement
    simp [hskip]

/-- Witness for Claim C5 at a concrete input: a transient always-true
rule with unlimited multiplicity on a fresh player snapshot. -/
theorem transient_rule_raises_distinct_error_witness :
    (AchievementRule.mk 0 true (RuleKeySpec.scalar "a")
        (PredSpec.fn (fun _ => true))).transient = true ∧
      (AchievementRule.mk 0 true (RuleKeySpec.scalar "a")
          (PredSpec.fn (fun _ => true))).predicate =
        PredSpec.fn (fun _ => true) ∧
      (fun _ : GamePlayer => true) (makePlayer samplePlayer) = true ∧
      ¬ ((AchievementRule.mk 0 true (RuleKeySpec.scalar "a")
            (PredSpec.fn (fun _ => true))).multiplicity > 0 ∧
          countAchievement (makePlayer samplePlayer).achievements "a"
              (AchievementRule.mk 0 true (RuleKeySpec.scalar "a")
                (PredSpec.fn (fun _ => true))).multiplicity ≥
            (AchievementRule.mk 0 true (RuleKeySpec.scalar "a")
              (PredSpec.fn (fun _ => true))).multiplicity) ∧
      (evaluateSingleAchievement (makePlayer samplePlayer) "a"
          (AchievementRule.mk 0 true (RuleKeySpec.scalar "a")
            (PredSpec.fn (fun _ => true))) 0 (MemoryDataStore.mk []) =
          EngineOutcome.mk (MemoryDataStore.mk []) []
            (some transientTodoError) ∧
        transientTodoError ≠ methodNotImplementedError ∧
        resolveKeys RuleKeySpec.unset (makePlayer samplePlayer) =
          Except.error methodNotImplementedError ∧
        (evaluateSingleAchievement (makePlayer samplePlayer) "a"
            (AchievementRule.mk
              (AchievementRule.mk 0 true (RuleKeySpec.scalar "a")
                (PredSpec.fn (fun _ => true))).multiplicity
              (AchievementRule.mk 0 true (RuleKeySpec.scalar "a")
                (PredSpec.fn (fun _ => true))).transient
              (AchievementRule.mk 0 true (RuleKeySpec.scalar "a")
                (PredSpec.fn (fun _ => true))).key PredSpec.unset) 0
            (MemoryDataStore.mk [])).err = some methodNotImplementedError) :=
  ⟨rfl, rfl, rfl, by decide,
    transient_rule_raises_distinct_error (makePlayer samplePlayer) "a"
      (AchievementRule.mk 0 true (RuleKeySpec.scalar "a")
        (PredSpec.fn (fun _ => true))) 0 (MemoryDataStore.mk [])
      (fun _ => true) rfl rfl rfl (by decide)⟩

/-- Claim C6: player registration is idempotent — recording a player a
second time with the same id leaves the store (and hence the stored
history and achievements) exactly as it was after the first call. -/
theorem recordPlayer_idempotent (s : MemoryDataStore) (p q : Player)
    (h : q.id = p.id) :
    (s.recordPlayer p).recordPlayer q = s.recordPlayer p := by
  apply recordPlayer_of_lookup_some
  rw [h]
  exact recordPlayer_lookup s p

/-- Witness for Claim C6 at a concrete input: the same player id
re-submitted with different caller-defined fields. -/
theorem recordPlayer_idempotent_witness :
    (Player.mk "p1" [("k", "v2")]).id = samplePlayer.id ∧
      ((MemoryDataStore.mk []).recordPlayer samplePlayer).recordPlayer
          (Player.mk "p1" [("k", "v2")]) =
        (MemoryDataStore.mk []).recordPlayer samplePlayer :=
  ⟨rfl, recordPlayer_idempotent (MemoryDataStore.mk []) samplePlayer
    (Player.mk "p1" [("k", "v2")]) rfl⟩

/-- Claim C7: after every `recordAchievement` call the recorded
achievement is in the player's achievements sequence and appears as a
history item whose timestamp is the achievement's own `achieved` time
(appended last by the call); and every `recordEvent` call appends a
history item wrapping the event. -/
theorem record_operations_append_history (s : MemoryDataStore) (p : Player)
    (a : Achievement) (e : Event) (now : Nat) :
    (∃ gp, lookupState (s.recordAchievement p a).gameStates p.id = some gp ∧
      a ∈ gp.achievements ∧
      HistoryItem.mk a.achieved (HistoryEntry.achievement a) ∈ gp.history ∧
      gp.history.getLast? =
        some (HistoryItem.mk a.achieved (HistoryEntry.achievement a))) ∧
    (∃ gp, lookupState (s.recordEvent p e now).gameStates p.id = some gp ∧
      gp.history.getLast? = some (HistoryItem.mk now (HistoryEntry.event e))) := by
  constructor
  · refine ⟨_, recordAchievement_lookup s p a, ?_, ?_, ?_⟩
    · simp
    · simp
    · simp
  · refine ⟨_, recordEvent_lookup s p e now, ?_⟩
    simp

/-- Claim C8: the in-memory adapter's `getPlayer` returns an independent
deep copy (`JSValue.val`, never an alias of the store entry), so any
mutation a caller applies to the returned value — of its history,
achievements or data — leaves the adapter's internal state unchanged. -/
theorem getPlayer_copy_mutation_isolated (s : MemoryDataStore) (p : Player)
    (f : GamePlayer → GamePlayer) :
    mutateReturned s (s.getPlayerAliased p) f = s := by
  unfold mutateReturned MemoryDataStore.getPlayerAliased
  cases h : lookupState s.gameStates p.id with
  | none => simp [h]
  | some gp => simp [h]

/-- Claim C9: with the in-memory adapter, the defensive skip branch of
`addEvent` is unreachable — `recordEvent` creates the `GamePlayer` for
an unseen id before appending the event, so the `getPlayer` lookup that
follows always succeeds, and every `addEvent` call takes the branch that
evaluates the registered rules against the fetched snapshot. -/
theorem addEvent_always_evaluates_rules (eng : GameEngine) (p : Player)
    (eventName : String) (now : Nat) :
    ∃ gp, (eng.datastore.recordEvent p (Event.mk eventName) now).getPlayer p =
        some gp ∧
      eng.addEvent p eventName now =
        (GameEngine.mk
            (evalRules gp now
              (eng.datastore.recordEvent p (Event.mk eventName) now)
              eng.achievementRules).store eng.achievementRules,
          Notification.eventOccurred p (Event.mk eventName) ::
            (evalRules gp now
              (eng.datastore.recordEvent p (Event.mk eventName) now)
              eng.achievementRules).emitted,
          (evalRules gp now
            (eng.datastore.recordEvent p (Event.mk eventName) now)
            eng.achievementRules).err) := by
  have hl := recordEvent_lookup eng.datastore p (Event.mk eventName) now
  have hgp : (eng.datastore.recordEvent p (Event.mk eventName) now).getPlayer p =
      some (GamePlayer.mk
        ((lookupState eng.datastore.gameStates p.id).getD (makePlayer p)).id
        ((lookupState eng.datastore.gameStates p.id).getD (makePlayer p)).achievements
        (((lookupState eng.datastore.gameStates p.id).getD (makePlayer p)).history ++
          [HistoryItem.mk now (HistoryEntry.event (Event.mk eventName))])
        ((lookupState eng.datastore.gameStates p.id).getD (makePlayer p)).data) := by
    unfold MemoryDataStore.getPlayer
    rw [hl]
    rfl
  refine ⟨_, hgp, ?_⟩
  unfold GameEngine.addEvent
  simp [hgp]

/-- Claim C10: for a player id already present in the in-memory store,
`recordPlayer` leaves the whole store — in particular the stored
`GamePlayer`, including its `data` field — entirely unchanged:
re-submitting a player with the same id but different caller-defined
fields does not update the stored player data. -/
theorem recordPlayer_preserves_existing_player (s : MemoryDataStore)
    (q : Player) (gp : GamePlayer)
    (h : lookupState s.gameStates q.id = some gp) :
    s.recordPlayer q = s ∧
      lookupState (s.recordPlayer q).gameStates q.id = some gp ∧
      (lookupState (s.recordPlayer q).gameStates q.id).map GamePlayer.data =
        some gp.data := by
  have hs := recordPlayer_of_lookup_some s q gp h
  exact ⟨hs, by rw [hs, h], by rw [hs, h]; rfl⟩

/-- Witness for Claim C10 at a concrete input: the stored player was
created from fields `[("k", "v1")]`; re-submitting id `"p1"` with fields
`[("k", "v2")]` changes nothing. -/
theorem recordPlayer_preserves_existing_player_witness :
    lookupState
        (MemoryDataStore.mk
          [("p1", makePlayer (Player.mk "p1" [("k", "v1")]))]).gameStates
        (Player.mk "p1" [("k", "v2")]).id =
      some (makePlayer (Player.mk "p1" [("k", "v1")])) ∧
      ((MemoryDataStore.mk
            [("p1", makePlayer (Player.mk "p1" [("k", "v1")]))]).recordPlayer
          (Player.mk "p1" [("k", "v2")]) =
        MemoryDataStore.mk
          [("p1", makePlayer (Player.mk "p1" [("k", "v1")]))] ∧
      lookupState
          ((MemoryDataStore.mk
              [("p1", makePlayer (Player.mk "p1" [("k", "v1")]))]).recordPlayer
            (Player.mk "p1" [("k", "v2")])).gameStates
          (Player.mk "p1" [("k", "v2")]).id =
        some (makePlayer (Player.mk "p1" [("k", "v1")])) ∧
      (lookupState
          ((MemoryDataStore.mk
              [("p1", makePlayer (Player.mk "p1" [("k", "v1")]))]).recordPlayer
            (Player.mk "p1" [("k", "v2")])).gameStates
          (Player.mk "p1" [("k", "v2")]).id).map GamePlayer.data =
        some (makePlayer (Player.mk "p1" [("k", "v1")])).data) :=
  ⟨by decide,
    recordPlayer_preserves_existing_player
      (MemoryDataStore.mk [("p1", makePlayer (Player.mk "p1" [("k", "v1")]))])
      (Player.mk "p1" [("k", "v2")])
      (makePlayer (Player.mk "p1" [("k", "v1")])) (by decide)⟩

end AGE
